import Mathlib

/- Verification of the streaming-server core (pkg/stream/stream.go and
   pkg/socket/server/server.go), as a shallow embedding in Lean.

   Modeling conventions:
   * Go strings are modeled as lists of characters (`GoStr`).
   * Go maps are modeled as association lists; the only map operations the
     code uses are lookup, insert-or-replace and delete, whose Go semantics
     do not depend on iteration order.
   * Go float64 values reaching the normalized metadata payloads are modeled
     as rationals; every value the code produces there is the image of an
     integer or an exact division, far below 2^53, so the embedding is exact.
   * Effectful operations (callback invocation, goroutine spawning, logging,
     websocket admission) are modeled by returning explicit traces of the
     effects the Go code performs, in program order. -/

set_option autoImplicit false

/-- Go strings, modeled as lists of characters. -/
abbrev GoStr := List Char

/-- Prefix test on character lists (the check performed at each scan
position when looking for a substring occurrence). -/
def leadsWith : GoStr → GoStr → Bool
  | [], _ => true
  | _ :: _, [] => false
  | a :: as, b :: bs => a = b && leadsWith as bs

/-- Leftmost occurrence of a separator in a string: `some (before, after)`
where `before` is the text preceding the first occurrence of `sep` and
`after` the text following it, or `none` when `sep` does not occur.
Models `strings.Index` for the nonempty separators this repository uses. -/
def firstSplit (sep : GoStr) : GoStr → Option (GoStr × GoStr)
  | [] => none
  | c :: rest =>
    if leadsWith sep (c :: rest) then some ([], (c :: rest).drop sep.length)
    else
      match firstSplit sep rest with
      | none => none
      | some (b, a) => some (c :: b, a)

/-- Fuel-indexed splitting around a separator. With fuel at least the length
of the input this computes Go `strings.Split` for a nonempty separator,
because every split step consumes at least one character. -/
def splitOnFuel (sep : GoStr) : Nat → GoStr → List GoStr
  | 0, s => [s]
  | fuel + 1, s =>
    match firstSplit sep s with
    | none => [s]
    | some (b, a) => b :: splitOnFuel sep fuel a

/-- Go `strings.Split(s, sep)` for a nonempty separator: the substrings of
`s` around all non-overlapping occurrences of `sep`, scanned left to right.
(Go's special behavior for an empty separator is irrelevant here: every call
site in the repository passes a fixed nonempty separator.) -/
def splitOnGo (sep s : GoStr) : List GoStr :=
  splitOnFuel sep s.length s


/- ===== Go maps, modeled as association lists ===== -/

/-- Go map lookup `v, ok := m[k]` (the `ok` is `(mapGet m k).isSome`). -/
def mapGet {κ V : Type} [DecidableEq κ] (m : List (κ × V)) (k : κ) : Option V :=
  match m with
  | [] => none
  | (k', v) :: rest => if k' = k then some v else mapGet rest k

/-- Go map assignment `m[k] = v`: replaces the value when the key is
present, adds the pair otherwise. -/
def mapPut {κ V : Type} [DecidableEq κ] (m : List (κ × V)) (k : κ) (v : V) : List (κ × V) :=
  match m with
  | [] => [(k, v)]
  | (k', v') :: rest => if k' = k then (k, v) :: rest else (k', v') :: mapPut rest k v


deriving instance DecidableEq for Except

/- ===== pkg/stream/stream.go : data model ===== -/

/-- A `StreamRef` (stream.go:38-41): an object exposing only a stable
identity `UUID() string`, used purely for equality/keying. -/
structure StreamRefSchema where
  UUID : GoStr
deriving DecidableEq

/-- `StreamMetaSchema` (stream.go:99-109). `CreationSource` is an interface
carrying only a source name, modeled by that name; `LastUpdated` is a
timestamp, modeled as an abstract tick (`Nat`); the two Go maps are modeled
as association lists. -/
structure StreamMetaSchema where
  CreationSource : GoStr
  LastUpdated : Nat
  ParentRefs : List (GoStr × StreamRefSchema)
  LabelledRefs : List (GoStr × StreamRefSchema)
deriving DecidableEq

/-- `StreamMetaSchema.SetLastUpdated` (stream.go:119-121). -/
def StreamMetaSchema.SetLastUpdated (s : StreamMetaSchema) (t : Nat) : StreamMetaSchema :=
  { s with LastUpdated := t }

/-- `StreamMetaSchema.AddParentRef` (stream.go:135-141): if the ref's UUID
is already a key of ParentRefs, return false without mutating; otherwise
store the ref under its UUID and return true. The Go method mutates the
receiver; the model additionally returns the updated value. -/
def StreamMetaSchema.AddParentRef (s : StreamMetaSchema) (ref : StreamRefSchema) :
    StreamMetaSchema × Bool :=
  if (mapGet s.ParentRefs ref.UUID).isSome then (s, false)
  else ({ s with ParentRefs := mapPut s.ParentRefs ref.UUID ref }, true)

/-- `StreamMetaSchema.SetLabelledRef` (stream.go:151-159): if the key
exists, assign the new value and return false; otherwise assign it and
return true. Both branches perform the same map assignment, as in the
source. -/
def StreamMetaSchema.SetLabelledRef (s : StreamMetaSchema) (key : GoStr)
    (value : StreamRefSchema) : StreamMetaSchema × Bool :=
  if (mapGet s.LabelledRefs key).isSome then
    ({ s with LabelledRefs := mapPut s.LabelledRefs key value }, false)
  else
    ({ s with LabelledRefs := mapPut s.LabelledRefs key value }, true)

/-- `StreamMetaSchema.GetLabelledRef` (stream.go:161-167): `(ref, true)`
when the key exists, `(nil, false)` otherwise (Go's nil interface is
modeled as `none`). -/
def StreamMetaSchema.GetLabelledRef (s : StreamMetaSchema) (key : GoStr) :
    Option StreamRefSchema × Bool :=
  match mapGet s.LabelledRefs key with
  | some ref => (some ref, true)
  | none => (none, false)

/-- `NewStreamMeta` (stream.go:178-185); `now` models `time.Now()` and the
unknown creation source carries the name reported by
`UnknownStreamCreationSourceSchema.GetSourceName` (stream.go:45-47). -/
def NewStreamMeta (now : Nat) : StreamMetaSchema :=
  { CreationSource := "no source info".toList
    LastUpdated := now
    ParentRefs := []
    LabelledRefs := [] }

/-- `StreamSchema` (stream.go:219-232). `Duration` is a Go float64, modeled
as a rational. -/
structure StreamSchema where
  Kind : GoStr
  Name : GoStr
  Url : GoStr
  Duration : ℚ
  Thumbnail : GoStr
  Meta : StreamMetaSchema
deriving DecidableEq

/-- `StreamSchema.GetStreamURL` (stream.go:234-236). -/
def StreamSchema.GetStreamURL (s : StreamSchema) : GoStr :=
  s.Url

/-- `StreamSchema.UUID` (stream.go:238-240): a stream's unique id is its
URL. -/
def StreamSchema.UUID (s : StreamSchema) : GoStr :=
  s.Url

/-- `StreamSchema.GetKind` (stream.go:246-248). -/
def StreamSchema.GetKind (s : StreamSchema) : GoStr :=
  s.Kind

/-- `StreamSchema.Metadata` (stream.go:254-256). -/
def StreamSchema.Metadata (s : StreamSchema) : StreamMetaSchema :=
  s.Meta

/-- One invocation of a `StreamMetadataCallback` (stream.go:30): the
callback receives the stream itself, a data payload (`nil` modeled as
`none`) and an error (`nil` modeled as `none`). -/
structure CallbackCall where
  payload : Option GoStr
  err : Option GoStr
deriving DecidableEq, Inhabited

/-- `StreamSchema.FetchMetadata` (stream.go:258-260): the base schema has
no provider; it invokes the callback once, directly on the caller, with a
nil payload and an error built by
`fmt.Errorf("Stream schema of kind %q has no FetchMetadata method implemented.", s.Kind)`
(`%q` wraps the kind in double quotes; none of the repository's kind tags
contain characters `%q` would escape). The model returns the list of
callback invocations performed synchronously, paired with the number of
goroutines spawned. -/
def StreamSchema.FetchMetadata (s : StreamSchema) : List CallbackCall × Nat :=
  ([{ payload := none
      err := some ("Stream schema of kind \"".toList ++ s.Kind ++
        "\" has no FetchMetadata method implemented.".toList) }], 0)

/-- `StreamSchema.SetInfo` (stream.go:271-274): stamps `time.Now()` on the
Meta, then returns the result of `json.Unmarshal(data, s)`. The external
`encoding/json` collaborator is a parameter `um` taking the input bytes and
the (already stamped) schema and returning the updated schema and an
optional error. -/
def StreamSchema.SetInfo (um : GoStr → StreamSchema → StreamSchema × Option GoStr)
    (s : StreamSchema) (now : Nat) (data : GoStr) : StreamSchema × Option GoStr :=
  let stamped := { s with Meta := s.Meta.SetLastUpdated now }
  um data stamped

/- ===== pkg/stream/stream.go : identity extraction ===== -/

/-- The `/` separator used by `strings.Split` in `ytVideoIdFromUrl`. -/
def slashStr : GoStr := "/".toList

/-- The literal `watch?v=` marker of `ytVideoIdFromUrl`. -/
def watchMarkerStr : GoStr := "watch?v=".toList

/-- The `&` separator of `ytVideoIdFromUrl` and `NewYouTubeStream`. -/
def ampStr : GoStr := "&".toList

/-- The literal `/videos/` separator of `twitchVideoIdFromUrl`. -/
def videosSepStr : GoStr := "/videos/".toList

/-- The `invalid url` error text of both extraction functions. -/
def invalidUrlErr : GoStr := "invalid url".toList

/-- `ytVideoIdFromUrl` (stream.go:762-781): split the URL on `/`; fewer
than two segments is an invalid url; otherwise take the last segment; if it
matches the literal pattern `watch\?v=` (modeled as: the literal substring
`watch?v=` occurs in it, which is what that regular expression matches),
split the segment on `watch?v=`; split the part after on `&`; when the `&`
split produced more than one part return its first part, otherwise return
the part after `watch?v=`; with no pattern match the last segment itself is
the id. -/
def ytVideoIdFromUrl (videoUrl : GoStr) : Except GoStr GoStr :=
  let segs := splitOnGo slashStr videoUrl
  if segs.length < 2 then .error invalidUrlErr
  else
    let lastSeg := segs.getLast!
    if (firstSplit watchMarkerStr lastSeg).isSome then
      let idSegs := splitOnGo watchMarkerStr lastSeg
      let ampSegs := splitOnGo ampStr (idSegs.get! 1)
      if ampSegs.length > 1 then .ok (ampSegs.get! 0)
      else .ok (idSegs.get! 1)
    else .ok lastSeg

/-- `twitchVideoIdFromUrl` (stream.go:783-790): split the URL on the
literal `/videos/`; exactly two parts are required, and the id is the
second part. -/
def twitchVideoIdFromUrl (videoUrl : GoStr) : Except GoStr GoStr :=
  let segs := splitOnGo videosSepStr videoUrl
  if segs.length ≠ 2 then .error invalidUrlErr
  else .ok (segs.get! 1)

/- ===== pkg/stream/stream.go : SoundCloud metadata normalization ===== -/

/-- A decoded SoundCloud resolve response (stream.go:694-702): title,
integer millisecond duration, and the nested user's `avatar_url`. -/
structure SoundCloudResponseItem where
  Title : GoStr
  Duration : Int
  UserThumb : GoStr
deriving DecidableEq

/-- The normalized payload map built by the goroutine inside
`SoundCloudStream.FetchMetadata` (stream.go:735-738), keys `name`,
`duration`, `thumb`. -/
structure SoundCloudVideoItem where
  name : GoStr
  duration : ℚ
  thumb : GoStr
deriving DecidableEq

/-- The normalization step of `SoundCloudStream.FetchMetadata`
(stream.go:735-738). The duration is Go's
`float64(scResponseItem.Duration / 1000.0)`: `Duration` has type `int`, so
the untyped constant `1000.0` converts to the `int` 1000 and the division
is Go integer division (truncation toward zero, `Int.tdiv`), only then
converted to float64. -/
def soundCloudNormalize (item : SoundCloudResponseItem) : SoundCloudVideoItem :=
  { name := item.Title
    duration := ((Int.tdiv item.Duration 1000 : Int) : ℚ)
    thumb := item.UserThumb }

/- ===== pkg/stream/stream.go : stream factories ===== -/

/-- `NewYouTubeStream` (stream.go:382-405): normalize the url by dropping
everything from the first `&` on (when one occurs), build a thumbnail from
the extracted id when extraction succeeds, and assemble the schema. The
provider api key is process configuration external to the core and is not
part of the schema. -/
def NewYouTubeStream (now : Nat) (videoUrl : GoStr) : StreamSchema :=
  let segs := splitOnGo ampStr videoUrl
  let normalized := if segs.length > 1 then segs.get! 0 else videoUrl
  let thumb := match ytVideoIdFromUrl normalized with
    | .ok id => "https://img.youtube.com/vi/".toList ++ id ++ "/default.jpg".toList
    | .error _ => []
  { Kind := "youtube".toList
    Name := []
    Url := normalized
    Duration := 0
    Thumbnail := thumb
    Meta := NewStreamMeta now }

/-- `NewLocalVideoStream` (stream.go:458-466). -/
def NewLocalVideoStream (now : Nat) (filepath : GoStr) : StreamSchema :=
  { Kind := "movie".toList
    Name := []
    Url := filepath
    Duration := 0
    Thumbnail := []
    Meta := NewStreamMeta now }

/-- `NewRemoteVideoStream` (stream.go:487-495). -/
def NewRemoteVideoStream (now : Nat) (url : GoStr) : StreamSchema :=
  { Kind := "movie".toList
    Name := []
    Url := url
    Duration := 0
    Thumbnail := []
    Meta := NewStreamMeta now }

/-- `NewTwitchStream` (stream.go:578-588). -/
def NewTwitchStream (now : Nat) (videoUrl : GoStr) : StreamSchema :=
  { Kind := "twitch".toList
    Name := []
    Url := videoUrl
    Duration := 0
    Thumbnail := []
    Meta := NewStreamMeta now }

/-- `NewTwitchClipStream` (stream.go:674-684). -/
def NewTwitchClipStream (now : Nat) (videoUrl : GoStr) : StreamSchema :=
  { Kind := "twitch#clip".toList
    Name := []
    Url := videoUrl
    Duration := 0
    Thumbnail := []
    Meta := NewStreamMeta now }

/-- `NewSoundCloudStream` (stream.go:750-760). -/
def NewSoundCloudStream (now : Nat) (videoUrl : GoStr) : StreamSchema :=
  { Kind := "soundcloud".toList
    Name := []
    Url := videoUrl
    Duration := 0
    Thumbnail := []
    Meta := NewStreamMeta now }

/- ===== pkg/socket/server/server.go ===== -/

/-- `Server` (server.go:33-39): the event-bus part. Listener callbacks are
opaque Go function values, modeled by an abstract type `α`; the connection
and namespace handlers are external collaborators and appear as inputs of
the admission model below. -/
structure Server (α : Type) where
  callbacks : List (String × List α)

/-- `NewServer` (server.go:95-101): empty callback registry. -/
def NewServer (α : Type) : Server α :=
  { callbacks := [] }

/-- `Server.On` (server.go:41-48): ensure a (possibly empty) slice exists
for the event name, then append the callback to it. -/
def Server.On {α : Type} (s : Server α) (eventName : String) (callback : α) : Server α :=
  let cbs := if (mapGet s.callbacks eventName).isSome then s.callbacks
    else mapPut s.callbacks eventName []
  { s with callbacks := mapPut cbs eventName (((mapGet cbs eventName).getD []) ++ [callback]) }

/-- `Server.Emit` (server.go:50-59): look up the event name; when absent,
return; otherwise call every registered callback in slice order, passing
the connection. The model returns the invocation sequence (callback paired
with the connection it receives), in the order the Go loop performs the
calls; `Emit` reads but never writes the registry. -/
def Server.Emit {α γ : Type} (s : Server α) (eventName : String) (conn : γ) : List (α × γ) :=
  match mapGet s.callbacks eventName with
  | none => []
  | some cs => cs.map (fun c => (c, conn))

/-- `getClientOrigin` (server.go:107-118): origin is `proto://host` parsed
from the referer, or the wildcard `*` when the referer has no `://`. -/
def getClientOrigin (referer : GoStr) : GoStr :=
  let clientProto := splitOnGo "://".toList referer
  if clientProto.length > 1 then
    let clientHost := splitOnGo "/".toList (clientProto.get! 1)
    clientProto.get! 0 ++ "://".toList ++ clientHost.get! 0
  else "*".toList

/-- `DEFAULT_NAMESPACE` (server.go:15). -/
def DEFAULT_NAMESPACE : String := "lobby"

/-- One observable step performed by `Server.ServeHTTP`, in program order:
a log line, a response-header write, a namespace-record creation in the
shared registry, the construction of a Connection, a namespace join, an
event-bus emission, or the handoff of the connection to the receive-loop
owner (`connHandler.Handle`). -/
inductive SocketEffect where
  | log : SocketEffect
  | setHeader : GoStr → GoStr → SocketEffect
  | nsCreated : String → SocketEffect
  | connCreated : SocketEffect
  | joined : String → SocketEffect
  | emitted : String → SocketEffect
  | handled : SocketEffect
deriving DecidableEq

/-- The per-request inputs of `Server.ServeHTTP` that come from external
collaborators: the request's referer header, the result of
`util.NamespaceFromRequest` (`none` models its error), and whether
`websocket.Upgrade` succeeds. -/
structure AdmissionRequest where
  referer : GoStr
  nsFromRequest : Option String
  upgradeOk : Bool

/-- True for the effects `ServeHTTP` may perform before and including a
failed upgrade: logging, response-header writes, and the namespace record
itself. Connection construction, joins, emissions and handoff are not
among them. -/
def SocketEffect.isPreUpgrade : SocketEffect → Bool
  | .log => true
  | .setHeader _ _ => true
  | .nsCreated _ => true
  | _ => false

/-- `Server.ServeHTTP` (server.go:62-93), modeled as a function from the
current namespace-registry contents and the request to the updated registry
plus the trace of effects in program order: log the request; set the two
CORS headers for the resolved origin; resolve the namespace name, falling
back to `DEFAULT_NAMESPACE` with a log on error; get-or-create the
namespace record (logging on create); upgrade — on failure log and return;
otherwise construct the connection, join it to the namespace, emit the
`"connection"` event and hand the connection off. -/
def serveHTTP (namespaces : List String) (r : AdmissionRequest) :
    List String × List SocketEffect :=
  let origin := getClientOrigin r.referer
  let fx0 := [SocketEffect.log,
    SocketEffect.setHeader "Access-Control-Allow-Origin".toList origin,
    SocketEffect.setHeader "Access-Control-Allow-Credentials".toList "true".toList]
  let nsName := r.nsFromRequest.getD DEFAULT_NAMESPACE
  let fx1 := match r.nsFromRequest with
    | some _ => []
    | none => [SocketEffect.log]
  let nsKnown := namespaces.contains nsName
  let namespaces' := if nsKnown then namespaces else nsName :: namespaces
  let fx2 := if nsKnown then [] else [SocketEffect.log, SocketEffect.nsCreated nsName]
  if r.upgradeOk = false then
    (namespaces', fx0 ++ fx1 ++ fx2 ++ [SocketEffect.log])
  else
    (namespaces', fx0 ++ fx1 ++ fx2 ++
      [SocketEffect.connCreated, SocketEffect.joined nsName,
       SocketEffect.emitted "connection", SocketEffect.handled])

/- ===== Claim-side definitions (stated from the specification's words,
       to be compared with the definitions taken from the source) ===== -/

/-- The YouTube id-extraction rule exactly as claim C2 words it: take the
final `/`-delimited path segment; with no path segments (no `/` can be
split on) fail with an invalid-URL error; if the segment contains the
marker `watch?v=`, the id is the portion after the (first occurrence of
the) marker, truncated before the first `&` when one is present; otherwise
the final path segment itself is the id. -/
def ytVideoIdClaimed (videoUrl : GoStr) : Except GoStr GoStr :=
  let segs := splitOnGo slashStr videoUrl
  if segs.length < 2 then .error invalidUrlErr
  else
    let lastSeg := segs.getLast!
    match firstSplit watchMarkerStr lastSeg with
    | none => .ok lastSeg
    | some (_, afterMarker) => .ok (afterMarker.takeWhile (fun x => x ≠ '&'))

/-- Claim C2 amended to what the source computes: as `ytVideoIdClaimed`,
except that the portion after the marker is additionally truncated before
the next occurrence of the marker `watch?v=` (because the source takes the
second element of the split on the marker), and only then truncated before
the first `&`. -/
def ytVideoIdAmendedClaim (videoUrl : GoStr) : Except GoStr GoStr :=
  let segs := splitOnGo slashStr videoUrl
  if segs.length < 2 then .error invalidUrlErr
  else
    let lastSeg := segs.getLast!
    match firstSplit watchMarkerStr lastSeg with
    | none => .ok lastSeg
    | some (_, afterMarker) =>
      let upToNextMarker := match firstSplit watchMarkerStr afterMarker with
        | none => afterMarker
        | some (beforeNext, _) => beforeNext
      .ok (upToNextMarker.takeWhile (fun x => x ≠ '&'))

/-- The listeners currently registered under an event name (Go's indexing
of the callback map, yielding the zero-value empty slice when absent). -/
def listenersFor {α : Type} (s : Server α) (n : String) : List α :=
  (mapGet s.callbacks n).getD []

/-- Registering a sequence of `(eventName, callback)` pairs by repeated
`Server.On`, in order. -/
def applyOns {α : Type} (s : Server α) (ops : List (String × α)) : Server α :=
  ops.foldl (fun sv p => sv.On p.1 p.2) s

/- ===== Theorems ===== -/

theorem firstSplit_some_length (sep : GoStr) (hsep : sep ≠ []) :
    ∀ s b a, firstSplit sep s = some (b, a) → a.length < s.length := by
  intro s
  induction s with
  | nil => intro b a h; simp [firstSplit] at h
  | cons c rest ih =>
    intro b a h
    rw [firstSplit] at h
    by_cases hp : leadsWith sep (c :: rest) = true
    · rw [if_pos hp] at h
      simp only [Option.some.injEq, Prod.mk.injEq] at h
      obtain ⟨hb, ha⟩ := h
      subst ha
      rw [List.length_drop]
      have hpos : 0 < sep.length := by
        cases sep with
        | nil => exact absurd rfl hsep
        | cons x xs => simp
      have hlen : 0 < (c :: rest).length := by simp
      omega
    · rw [if_neg hp] at h
      cases hrec : firstSplit sep rest with
      | none => rw [hrec] at h; simp at h
      | some p =>
        obtain ⟨b', a'⟩ := p
        rw [hrec] at h
        simp only [Option.some.injEq, Prod.mk.injEq] at h
        obtain ⟨hb, ha⟩ := h
        subst ha
        have := ih b' a' hrec
        simp only [List.length_cons]
        omega

theorem splitOnFuel_congr (sep : GoStr) (hsep : sep ≠ []) :
    ∀ f₁ f₂ s, s.length ≤ f₁ → s.length ≤ f₂ →
      splitOnFuel sep f₁ s = splitOnFuel sep f₂ s := by
  intro f₁
  induction f₁ with
  | zero =>
    intro f₂ s h₁ h₂
    have hs : s = [] := List.length_eq_zero.mp (Nat.le_zero.mp h₁)
    subst hs
    cases f₂ with
    | zero => rfl
    | succ g => simp [splitOnFuel, firstSplit]
  | succ f ih =>
    intro f₂ s h₁ h₂
    cases f₂ with
    | zero =>
      have hs : s = [] := List.length_eq_zero.mp (Nat.le_zero.mp h₂)
      subst hs
      simp [splitOnFuel, firstSplit]
    | succ g =>
      show splitOnFuel sep (f + 1) s = splitOnFuel sep (g + 1) s
      unfold splitOnFuel
      cases hfs : firstSplit sep s with
      | none => rfl
      | some p =>
        obtain ⟨b, a⟩ := p
        have halt : a.length < s.length := firstSplit_some_length sep hsep s b a hfs
        have ha₁ : a.length ≤ f := Nat.lt_succ_iff.mp (Nat.lt_of_lt_of_le halt h₁)
        have ha₂ : a.length ≤ g := Nat.lt_succ_iff.mp (Nat.lt_of_lt_of_le halt h₂)
        simp [ih g a ha₁ ha₂]

theorem splitOnGo_unfold (sep : GoStr) (hsep : sep ≠ []) (s : GoStr) :
    splitOnGo sep s =
      match firstSplit sep s with
      | none => [s]
      | some (b, a) => b :: splitOnGo sep a := by
  cases s with
  | nil => simp [splitOnGo, splitOnFuel, firstSplit]
  | cons c rest =>
    cases hfs : firstSplit sep (c :: rest) with
    | none => simp [splitOnGo, splitOnFuel, hfs]
    | some p =>
      obtain ⟨b, a⟩ := p
      have halt : a.length < (c :: rest).length :=
        firstSplit_some_length sep hsep (c :: rest) b a hfs
      have ha : a.length ≤ rest.length := by
        simp only [List.length_cons] at halt; omega
      simp only [splitOnGo, List.length_cons, splitOnFuel, hfs]
      exact congrArg (b :: ·) (splitOnFuel_congr sep hsep rest.length a.length a ha (Nat.le_refl _))

theorem splitOnGo_ne_nil (sep : GoStr) (hsep : sep ≠ []) (s : GoStr) :
    splitOnGo sep s ≠ [] := by
  rw [splitOnGo_unfold sep hsep s]
  cases firstSplit sep s with
  | none => simp
  | some p => obtain ⟨b, a⟩ := p; simp

theorem firstSplit_single_some (c : Char) :
    ∀ s b a, firstSplit [c] s = some (b, a) → s = b ++ c :: a ∧ c ∉ b := by
  intro s
  induction s with
  | nil => intro b a h; simp [firstSplit] at h
  | cons x xs ih =>
    intro b a h
    rw [firstSplit] at h
    by_cases hx : c = x
    · subst hx
      have hlw : leadsWith [c] (c :: xs) = true := by simp [leadsWith]
      rw [if_pos hlw] at h
      simp only [Option.some.injEq, Prod.mk.injEq] at h
      obtain ⟨hb, ha⟩ := h
      subst hb
      simp only [List.length_cons, List.length_nil] at ha
      simp only [List.drop] at ha
      subst ha
      constructor
      · simp
      · simp
    · have hlw : leadsWith [c] (x :: xs) = false := by
        simp [leadsWith]
        intro h'
        exact absurd h' hx
      rw [hlw] at h
      simp only [Bool.false_eq_true, if_false] at h
      cases hrec : firstSplit [c] xs with
      | none => rw [hrec] at h; simp at h
      | some p =>
        obtain ⟨b', a'⟩ := p
        rw [hrec] at h
        simp only [Option.some.injEq, Prod.mk.injEq] at h
        obtain ⟨hb, ha⟩ := h
        subst hb
        subst ha
        obtain ⟨hxs, hnotmem⟩ := ih b' a' hrec
        constructor
        · rw [List.cons_append, ← hxs]
        · intro hmem
          rcases List.mem_cons.mp hmem with h' | h'
          · exact hx h'
          · exact hnotmem h'

theorem firstSplit_of_mem (c : Char) :
    ∀ s, c ∈ s → ∃ b a, firstSplit [c] s = some (b, a) := by
  intro s
  induction s with
  | nil => intro h; simp at h
  | cons x xs ih =>
    intro h
    rw [firstSplit]
    by_cases hx : c = x
    · subst hx
      have hlw : leadsWith [c] (c :: xs) = true := by simp [leadsWith]
      rw [if_pos hlw]
      exact ⟨[], (c :: xs).drop 1, rfl⟩
    · have hlw : leadsWith [c] (x :: xs) = false := by
        simp [leadsWith]
        intro h'
        exact absurd h' hx
      rw [hlw]
      simp only [Bool.false_eq_true, if_false]
      have hmem : c ∈ xs := by
        rcases List.mem_cons.mp h with h' | h'
        · exact absurd h' hx
        · exact h'
      obtain ⟨b, a, hba⟩ := ih hmem
      rw [hba]
      exact ⟨x :: b, a, rfl⟩

theorem firstSplit_none_iff (c : Char) (s : GoStr) :
    firstSplit [c] s = none ↔ c ∉ s := by
  constructor
  · intro hnone hmem
    obtain ⟨b, a, hba⟩ := firstSplit_of_mem c s hmem
    rw [hnone] at hba
    exact Option.noConfusion hba
  · intro hmem
    cases hfs : firstSplit [c] s with
    | none => rfl
    | some p =>
      obtain ⟨b, a⟩ := p
      obtain ⟨hs, _⟩ := firstSplit_single_some c s b a hfs
      exact absurd (by rw [hs]; simp : c ∈ s) hmem

theorem takeWhile_of_not_mem (c : Char) (s : GoStr) (h : c ∉ s) :
    s.takeWhile (fun x => x ≠ c) = s := by
  induction s with
  | nil => rfl
  | cons x xs ih =>
    rw [List.mem_cons, not_or] at h
    obtain ⟨hx, hxs⟩ := h
    rw [List.takeWhile_cons, if_pos (by simp; exact fun he => hx he.symm), ih hxs]

theorem takeWhile_append_stop (c : Char) (b a : GoStr) (h : c ∉ b) :
    (b ++ c :: a).takeWhile (fun x => x ≠ c) = b := by
  induction b with
  | nil => simp
  | cons x xs ih =>
    rw [List.mem_cons, not_or] at h
    obtain ⟨hx, hxs⟩ := h
    rw [List.cons_append, List.takeWhile_cons,
      if_pos (by simp; exact fun he => hx he.symm), ih hxs]

theorem mapGet_mapPut_self {κ V : Type} [DecidableEq κ] (m : List (κ × V)) (k : κ) (v : V) :
    mapGet (mapPut m k v) k = some v := by
  induction m with
  | nil => simp [mapGet, mapPut]
  | cons p rest ih =>
    obtain ⟨k', v'⟩ := p
    by_cases hk : k' = k
    · subst hk
      simp [mapGet, mapPut]
    · simp [mapGet, mapPut, hk, ih]

theorem mapGet_mapPut_ne {κ V : Type} [DecidableEq κ] (m : List (κ × V)) (k k' : κ) (v : V)
    (h : k' ≠ k) : mapGet (mapPut m k v) k' = mapGet m k' := by
  have hne : ¬ k = k' := fun he => h he.symm
  induction m with
  | nil => simp [mapGet, mapPut, hne]
  | cons p rest ih =>
    obtain ⟨k₀, v₀⟩ := p
    by_cases hk : k₀ = k
    · subst hk
      simp [mapGet, mapPut, hne]
    · simp only [mapPut, hk, if_false, mapGet]
      by_cases hk' : k₀ = k'
      · simp [hk']
      · simp [hk', ih]

/- ===== Bridging lemmas ===== -/

theorem ampBranchCollapse (t : GoStr) :
    (if (splitOnGo ampStr t).length > 1 then (splitOnGo ampStr t).get! 0 else t) =
      t.takeWhile (fun x => x ≠ '&') := by
  rw [splitOnGo_unfold ampStr (by decide) t]
  cases hfs : firstSplit ampStr t with
  | none =>
    simp only []
    rw [if_neg (by simp)]
    exact (takeWhile_of_not_mem '&' t ((firstSplit_none_iff '&' t).mp hfs)).symm
  | some p =>
    obtain ⟨b, a⟩ := p
    simp only []
    obtain ⟨ht, hnm⟩ := firstSplit_single_some '&' t b a hfs
    have hne := splitOnGo_ne_nil ampStr (by decide) a
    have hlen : (b :: splitOnGo ampStr a).length > 1 := by
      simp only [List.length_cons]
      have h0 : (splitOnGo ampStr a).length ≠ 0 :=
        fun h0 => hne (List.length_eq_zero.mp h0)
      omega
    rw [if_pos hlen]
    show b = t.takeWhile (fun x => x ≠ '&')
    rw [ht]
    exact (takeWhile_append_stop '&' b a hnm).symm

theorem splitSlash_short_iff (url : GoStr) :
    (splitOnGo slashStr url).length < 2 ↔ '/' ∉ url := by
  rw [splitOnGo_unfold slashStr (by decide) url]
  cases hfs : firstSplit slashStr url with
  | none =>
    simp only [List.length_singleton]
    constructor
    · intro _
      exact (firstSplit_none_iff '/' url).mp hfs
    · intro _
      omega
  | some p =>
    obtain ⟨b, a⟩ := p
    have h1 : splitOnGo slashStr a ≠ [] := splitOnGo_ne_nil slashStr (by decide) a
    have h2 : '/' ∈ url := by
      obtain ⟨hs, _⟩ := firstSplit_single_some '/' url b a hfs
      rw [hs]
      simp
    simp only [List.length_cons]
    constructor
    · intro hl
      exfalso
      have h0 : (splitOnGo slashStr a).length = 0 := by omega
      exact h1 (List.length_eq_zero.mp h0)
    · intro hn
      exact absurd h2 hn

/-- C2 (amended): YouTube id extraction takes the final `/`-delimited path
segment; when the segment contains the marker `watch?v=`, the id is the
portion after the marker truncated before the next occurrence of the marker
and before the first `&` when one is present; otherwise the final path
segment itself is the id; extraction fails with the invalid-URL error
exactly when the URL contains no `/` and so has no path segments to take;
and a URL ending in `watch?v=abc123&t=5` yields id `abc123`. -/
theorem c2_yt_id_extraction (url : GoStr) :
    ytVideoIdFromUrl url = ytVideoIdAmendedClaim url ∧
    (ytVideoIdFromUrl url = .error invalidUrlErr ↔ '/' ∉ url) ∧
    ytVideoIdFromUrl "https://www.youtube.com/watch?v=abc123&t=5".toList =
      .ok "abc123".toList := by
  refine ⟨?_, ?_, by decide⟩
  · simp only [ytVideoIdFromUrl, ytVideoIdAmendedClaim]
    by_cases hlen : (splitOnGo slashStr url).length < 2
    · rw [if_pos hlen, if_pos hlen]
    · rw [if_neg hlen, if_neg hlen]
      cases hm : firstSplit watchMarkerStr ((splitOnGo slashStr url).getLast!) with
      | none => simp [hm]
      | some p =>
        obtain ⟨b, afterM⟩ := p
        simp only [hm, Option.isSome_some, if_true]
        rw [splitOnGo_unfold watchMarkerStr (by decide)
          ((splitOnGo slashStr url).getLast!), hm]
        simp only [List.get!_cons_succ, List.get!_cons_zero]
        rw [splitOnGo_unfold watchMarkerStr (by decide) afterM]
        cases hm2 : firstSplit watchMarkerStr afterM with
        | none =>
          simp only [List.get!_cons_zero]
          rw [← apply_ite Except.ok]
          exact congrArg Except.ok (ampBranchCollapse afterM)
        | some p2 =>
          obtain ⟨b2, a2⟩ := p2
          simp only [List.get!_cons_zero]
          rw [← apply_ite Except.ok]
          exact congrArg Except.ok (ampBranchCollapse b2)
  · simp only [ytVideoIdFromUrl]
    by_cases hlen : (splitOnGo slashStr url).length < 2
    · rw [if_pos hlen]
      exact iff_of_true rfl ((splitSlash_short_iff url).mp hlen)
    · rw [if_neg hlen]
      refine iff_of_false ?_ ?_
      · intro h
        by_cases hm : (firstSplit watchMarkerStr ((splitOnGo slashStr url).getLast!)).isSome
        · rw [if_pos hm] at h
          by_cases ha : (splitOnGo ampStr
              ((splitOnGo watchMarkerStr ((splitOnGo slashStr url).getLast!)).get! 1)).length > 1
          · rw [if_pos ha] at h
            exact Except.noConfusion h
          · rw [if_neg ha] at h
            exact Except.noConfusion h
        · rw [if_neg hm] at h
          exact Except.noConfusion h
      · intro hn
        exact hlen ((splitSlash_short_iff url).mpr hn)

/-- C2 counterexample: on the URL `v/watch?v=xwatch?v=y` (final path
segment containing the marker twice, no `&`), the claim's rule — the id is
the portion after the marker, truncated before the first `&` when one is
present — prescribes `xwatch?v=y`, but the source splits the segment on the
marker and takes the element after the first piece, yielding `x`. -/
theorem c2_yt_id_counterexample :
    ytVideoIdFromUrl "v/watch?v=xwatch?v=y".toList = .ok "x".toList ∧
    ytVideoIdClaimed "v/watch?v=xwatch?v=y".toList = .ok "xwatch?v=y".toList ∧
    (Except.ok "x".toList : Except GoStr GoStr) ≠ .ok "xwatch?v=y".toList := by
  exact ⟨by decide, by decide, by decide⟩

/- ===== Claim theorems ===== -/

/-- C1: the SoundCloud normalization divides the millisecond duration by
1000 with Go *integer* division (the untyped constant `1000.0` converts to
`int`), so the spec's example 180000 ↦ 180.0 holds, but a duration of 1500
milliseconds normalizes to 1.0 rather than the 1.5 seconds that dividing by
1000 prescribes. -/
theorem c1_soundcloud_duration_truncated :
    (soundCloudNormalize { Title := [], Duration := 180000, UserThumb := [] }).duration = 180 ∧
    (soundCloudNormalize { Title := [], Duration := 1500, UserThumb := [] }).duration = 1 ∧
    ((1500 : ℚ) / 1000 = 3 / 2) ∧
    (soundCloudNormalize { Title := [], Duration := 1500, UserThumb := [] }).duration ≠
      (1500 : ℚ) / 1000 := by
  have h1 : Int.tdiv 180000 1000 = 180 := by decide
  have h2 : Int.tdiv 1500 1000 = 1 := by decide
  refine ⟨?_, ?_, by norm_num, ?_⟩
  · show ((Int.tdiv 180000 1000 : Int) : ℚ) = 180
    rw [h1]
    norm_num
  · show ((Int.tdiv 1500 1000 : Int) : ℚ) = 1
    rw [h2]
    norm_num
  · show ((Int.tdiv 1500 1000 : Int) : ℚ) ≠ (1500 : ℚ) / 1000
    rw [h2]
    norm_num

theorem setLabelledRef_fst (s : StreamMetaSchema) (key : GoStr) (v : StreamRefSchema) :
    (s.SetLabelledRef key v).1 = { s with LabelledRefs := mapPut s.LabelledRefs key v } := by
  unfold StreamMetaSchema.SetLabelledRef
  split <;> rfl

/-- C3: `SetLabelledRef` on an absent label stores the pair and returns
true; on a present label it returns false; in either case it overwrites,
so a subsequent `GetLabelledRef` returns the newest stored reference with
true, and setting the same label twice returns false the second time with
the old value gone. -/
theorem c3_set_labelled_ref (s : StreamMetaSchema) (label : GoStr) (r1 r2 : StreamRefSchema) :
    (mapGet s.LabelledRefs label = none → (s.SetLabelledRef label r1).2 = true) ∧
    ((mapGet s.LabelledRefs label).isSome → (s.SetLabelledRef label r1).2 = false) ∧
    ((s.SetLabelledRef label r1).1.GetLabelledRef label = (some r1, true)) ∧
    (((s.SetLabelledRef label r1).1.SetLabelledRef label r2).2 = false) ∧
    (((s.SetLabelledRef label r1).1.SetLabelledRef label r2).1.GetLabelledRef label =
      (some r2, true)) := by
  refine ⟨?_, ?_, ?_, ?_, ?_⟩
  · intro h
    simp [StreamMetaSchema.SetLabelledRef, h]
  · intro h
    obtain ⟨v, hv⟩ := Option.isSome_iff_exists.mp h
    simp [StreamMetaSchema.SetLabelledRef, hv]
  · rw [setLabelledRef_fst]
    simp [StreamMetaSchema.GetLabelledRef, mapGet_mapPut_self]
  · rw [setLabelledRef_fst]
    simp [StreamMetaSchema.SetLabelledRef, mapGet_mapPut_self]
  · rw [setLabelledRef_fst, setLabelledRef_fst]
    simp [StreamMetaSchema.GetLabelledRef, mapGet_mapPut_self]

/-- C3 witness at a concrete state: a fresh meta, label `x`, two distinct
refs. -/
theorem c3_witness :
    ((NewStreamMeta 0).SetLabelledRef "x".toList ⟨"u1".toList⟩).2 = true ∧
    (((NewStreamMeta 0).SetLabelledRef "x".toList ⟨"u1".toList⟩).1.SetLabelledRef
      "x".toList ⟨"u2".toList⟩).2 = false ∧
    (((NewStreamMeta 0).SetLabelledRef "x".toList ⟨"u1".toList⟩).1.SetLabelledRef
      "x".toList ⟨"u2".toList⟩).1.GetLabelledRef "x".toList = (some ⟨"u2".toList⟩, true) := by
  have h := c3_set_labelled_ref (NewStreamMeta 0) "x".toList ⟨"u1".toList⟩ ⟨"u2".toList⟩
  exact ⟨h.1 (by decide), h.2.2.2.1, h.2.2.2.2⟩

/-- C4: Twitch-video id extraction succeeds with the second part exactly
when splitting on the literal `/videos/` yields exactly two parts, fails
with the invalid-URL error otherwise, and `.../videos/55555` yields
`55555`. -/
theorem c4_twitch_video_id (url : GoStr) :
    (∀ a b, splitOnGo videosSepStr url = [a, b] → twitchVideoIdFromUrl url = .ok b) ∧
    ((splitOnGo videosSepStr url).length ≠ 2 → twitchVideoIdFromUrl url = .error invalidUrlErr) ∧
    twitchVideoIdFromUrl "https://www.twitch.tv/videos/55555".toList = .ok "55555".toList := by
  refine ⟨?_, ?_, by decide⟩
  · intro a b hab
    simp [twitchVideoIdFromUrl, hab]
  · intro h
    simp only [twitchVideoIdFromUrl]
    rw [if_pos h]

/-- C4 witness: a video URL with exactly one `/videos/` occurrence
succeeds; a clip-style URL without the literal fails. -/
theorem c4_witness :
    twitchVideoIdFromUrl "https://www.twitch.tv/videos/55555".toList = .ok "55555".toList ∧
    twitchVideoIdFromUrl "https://clips.twitch.tv/embed?clip=abcSlug".toList =
      .error invalidUrlErr := by
  exact ⟨(c4_twitch_video_id "https://www.twitch.tv/videos/55555".toList).1
      "https://www.twitch.tv".toList "55555".toList (by decide),
    (c4_twitch_video_id "https://clips.twitch.tv/embed?clip=abcSlug".toList).2.1 (by decide)⟩

/-- C5: with the identity not yet present, `AddParentRef` returns true and
stores the ref under its UUID; a second call with any ref of the same
identity returns false and leaves the state (hence the stored set's size
and members) unchanged. -/
theorem c5_add_parent_ref_idempotent (s : StreamMetaSchema) (r r' : StreamRefSchema)
    (hsame : r'.UUID = r.UUID) (hnew : mapGet s.ParentRefs r.UUID = none) :
    (s.AddParentRef r).2 = true ∧
    mapGet (s.AddParentRef r).1.ParentRefs r.UUID = some r ∧
    ((s.AddParentRef r).1.AddParentRef r') = ((s.AddParentRef r).1, false) ∧
    ((s.AddParentRef r).1.AddParentRef r').1.ParentRefs.length =
      (s.AddParentRef r).1.ParentRefs.length := by
  have h1 : s.AddParentRef r = ({ s with ParentRefs := mapPut s.ParentRefs r.UUID r }, true) := by
    simp [StreamMetaSchema.AddParentRef, hnew]
  have hget : mapGet (mapPut s.ParentRefs r.UUID r) r'.UUID = some r := by
    rw [hsame]
    exact mapGet_mapPut_self s.ParentRefs r.UUID r
  have h2 : ({ s with ParentRefs := mapPut s.ParentRefs r.UUID r} :
      StreamMetaSchema).AddParentRef r' = ({ s with ParentRefs := mapPut s.ParentRefs r.UUID r}, false) := by
    simp [StreamMetaSchema.AddParentRef, hget]
  refine ⟨by rw [h1], ?_, ?_, ?_⟩
  · rw [h1]
    exact mapGet_mapPut_self s.ParentRefs r.UUID r
  · rw [h1]
    exact h2
  · rw [h1]
    rw [h2]

/-- C5 witness: fresh meta, two ref values sharing the identity `id1`. -/
theorem c5_witness :
    ((NewStreamMeta 0).AddParentRef ⟨"id1".toList⟩).2 = true ∧
    (((NewStreamMeta 0).AddParentRef ⟨"id1".toList⟩).1.AddParentRef ⟨"id1".toList⟩) =
      (((NewStreamMeta 0).AddParentRef ⟨"id1".toList⟩).1, false) := by
  have h := c5_add_parent_ref_idempotent (NewStreamMeta 0) ⟨"id1".toList⟩ ⟨"id1".toList⟩
    rfl (by decide)
  exact ⟨h.1, h.2.2.1⟩

theorem on_listenersFor {α : Type} (s : Server α) (n k : String) (cb : α) :
    listenersFor (s.On n cb) k =
      if k = n then listenersFor s n ++ [cb] else listenersFor s k := by
  unfold listenersFor Server.On
  by_cases hex : (mapGet s.callbacks n).isSome
  · rw [if_pos hex]
    by_cases hk : k = n
    · subst hk
      rw [if_pos rfl, mapGet_mapPut_self]
      rfl
    · rw [if_neg hk, mapGet_mapPut_ne _ _ _ _ hk]
  · rw [if_neg hex]
    have hnone : mapGet s.callbacks n = none := by
      cases hmg : mapGet s.callbacks n with
      | none => rfl
      | some v => exact absurd (by rw [hmg]; rfl) hex
    by_cases hk : k = n
    · subst hk
      rw [if_pos rfl, mapGet_mapPut_self, mapGet_mapPut_self, hnone]
      rfl
    · rw [if_neg hk, mapGet_mapPut_ne _ _ _ _ hk, mapGet_mapPut_ne _ _ _ _ hk]

theorem applyOns_listeners {α : Type} (ops : List (String × α)) :
    ∀ (s : Server α) (n : String),
      listenersFor (applyOns s ops) n =
        listenersFor s n ++ (ops.filter (fun p => p.1 = n)).map Prod.snd := by
  induction ops with
  | nil => intro s n; simp [applyOns]
  | cons p rest ih =>
    intro s n
    obtain ⟨en, cb⟩ := p
    show listenersFor (applyOns (s.On en cb) rest) n = _
    rw [ih (s.On en cb) n, on_listenersFor]
    by_cases hk : n = en
    · subst hk
      rw [if_pos rfl]
      simp [List.filter]
    · rw [if_neg hk]
      have hne : ¬ (en = n) := fun he => hk he.symm
      simp [List.filter, hne]

theorem emit_eq_listeners {α γ : Type} (s : Server α) (n : String) (conn : γ) :
    s.Emit n conn = (listenersFor s n).map (fun c => (c, conn)) := by
  unfold Server.Emit listenersFor
  cases mapGet s.callbacks n <;> simp

/-- C6: after registering any sequence of listeners with `On` (which
appends, never replaces) on a fresh server, `Emit` invokes exactly the
listeners registered under the emitted name, in registration order, each
receiving the connection; and `Emit` on a name with no registered
listeners performs no invocation at all and returns without error. -/
theorem c6_event_bus {α γ : Type} (ops : List (String × α)) (name : String) (conn : γ)
    (s : Server α) :
    (Server.Emit (applyOns (NewServer α) ops) name conn =
      ((ops.filter (fun p => p.1 = name)).map Prod.snd).map (fun c => (c, conn))) ∧
    (mapGet s.callbacks name = none → s.Emit name conn = []) := by
  constructor
  · rw [emit_eq_listeners, applyOns_listeners]
    simp [listenersFor, NewServer, mapGet]
  · intro h
    simp [Server.Emit, h]

/-- C6 witness: three registrations on two names; emitting `a` fires its
two listeners in order; emitting on a fresh server fires nothing. -/
theorem c6_witness :
    Server.Emit (applyOns (NewServer Nat) [("a", 1), ("b", 2), ("a", 3)]) "a" (0 : Nat) =
      [(1, 0), (3, 0)] ∧
    Server.Emit (NewServer Nat) "c" (0 : Nat) = [] := by
  exact ⟨(c6_event_bus [("a", 1), ("b", 2), ("a", 3)] "a" (0 : Nat) (NewServer Nat)).1.trans
      (by decide),
    (c6_event_bus ([] : List (String × Nat)) "c" (0 : Nat) (NewServer Nat)).2 (by decide)⟩

/-- C7: when the protocol upgrade fails, the admission trace contains only
logging, response-header writes and the namespace record (no Connection
construction, no join, no emission, no handoff), it ends in the
failure log line, and the namespace registry gained at most the record
resolved before the upgrade. -/
theorem c7_upgrade_failure_aborts (namespaces : List String) (r : AdmissionRequest)
    (hfail : r.upgradeOk = false) :
    ((serveHTTP namespaces r).2.all SocketEffect.isPreUpgrade = true) ∧
    ((serveHTTP namespaces r).2.getLast? = some SocketEffect.log) ∧
    ((serveHTTP namespaces r).1 = namespaces ∨
      (serveHTTP namespaces r).1 = (r.nsFromRequest.getD DEFAULT_NAMESPACE) :: namespaces) := by
  unfold serveHTTP
  rw [if_pos hfail]
  refine ⟨?_, ?_, ?_⟩
  · cases hns : r.nsFromRequest with
    | none =>
      by_cases hk : DEFAULT_NAMESPACE ∈ namespaces <;>
        simp [hns, hk, SocketEffect.isPreUpgrade]
    | some nm =>
      by_cases hk : nm ∈ namespaces <;>
        simp [hns, hk, SocketEffect.isPreUpgrade]
  · cases hns : r.nsFromRequest with
    | none =>
      by_cases hk : DEFAULT_NAMESPACE ∈ namespaces <;>
        simp [hns, hk, List.getLast?_cons_cons]
    | some nm =>
      by_cases hk : nm ∈ namespaces <;>
        simp [hns, hk, List.getLast?_cons_cons]
  · by_cases hk : (r.nsFromRequest.getD DEFAULT_NAMESPACE) ∈ namespaces
    · left
      simp [hk]
    · right
      simp [hk]

/-- C7 witness: empty registry, request with no resolvable namespace and a
failing upgrade. -/
theorem c7_witness :
    ((serveHTTP [] { referer := [], nsFromRequest := none, upgradeOk := false }).2.all
      SocketEffect.isPreUpgrade = true) ∧
    ((serveHTTP [] { referer := [], nsFromRequest := none, upgradeOk := false }).2.getLast? =
      some SocketEffect.log) ∧
    ((serveHTTP [] { referer := [], nsFromRequest := none, upgradeOk := false }).1 = [] ∨
      (serveHTTP [] { referer := [], nsFromRequest := none, upgradeOk := false }).1 =
        (Option.getD none DEFAULT_NAMESPACE) :: []) := by
  exact c7_upgrade_failure_aborts [] { referer := [], nsFromRequest := none, upgradeOk := false }
    rfl

/-- C8: for every stream built by any of the six factories, `UUID` equals
`GetStreamURL` (both are the stored canonical URL), and any two schema
values with the same canonical URL have the same identity. -/
theorem c8_uuid_is_url :
    (∀ now url, (NewYouTubeStream now url).UUID = (NewYouTubeStream now url).GetStreamURL) ∧
    (∀ now p, (NewLocalVideoStream now p).UUID = (NewLocalVideoStream now p).GetStreamURL) ∧
    (∀ now u, (NewRemoteVideoStream now u).UUID = (NewRemoteVideoStream now u).GetStreamURL) ∧
    (∀ now u, (NewTwitchStream now u).UUID = (NewTwitchStream now u).GetStreamURL) ∧
    (∀ now u, (NewTwitchClipStream now u).UUID = (NewTwitchClipStream now u).GetStreamURL) ∧
    (∀ now u, (NewSoundCloudStream now u).UUID = (NewSoundCloudStream now u).GetStreamURL) ∧
    (∀ s t : StreamSchema, s.GetStreamURL = t.GetStreamURL → s.UUID = t.UUID) := by
  exact ⟨fun _ _ => rfl, fun _ _ => rfl, fun _ _ => rfl, fun _ _ => rfl, fun _ _ => rfl,
    fun _ _ => rfl, fun s t h => h⟩

/-- C8 witness: a concrete factory call, and two distinct-kind streams over
the same URL having equal identities. -/
theorem c8_witness :
    (NewTwitchStream 0 "u".toList).UUID = (NewTwitchStream 0 "u".toList).GetStreamURL ∧
    (NewTwitchStream 0 "u".toList).UUID = (NewSoundCloudStream 0 "u".toList).UUID := by
  exact ⟨c8_uuid_is_url.2.2.2.1 0 "u".toList,
    c8_uuid_is_url.2.2.2.2.2.2 (NewTwitchStream 0 "u".toList) (NewSoundCloudStream 0 "u".toList)
      rfl⟩

/-- C9: `SetInfo` stamps the fresh timestamp on the Meta before handing the
schema to the unmarshaller, so when the input is malformed — the
unmarshaller reports an error and writes nothing, as `encoding/json` does
on a syntax error — `SetInfo` returns that error while the timestamp has
nevertheless been advanced (the operation is not atomic on error). -/
theorem c9_set_info_stamps_before_unmarshal
    (um : GoStr → StreamSchema → StreamSchema × Option GoStr)
    (s : StreamSchema) (now : Nat) (data e : GoStr)
    (hmal : ∀ t, um data t = (t, some e)) :
    StreamSchema.SetInfo um s now data =
      ({ s with Meta := s.Meta.SetLastUpdated now }, some e) ∧
    (StreamSchema.SetInfo um s now data).1.Meta.LastUpdated = now ∧
    (StreamSchema.SetInfo um s now data).2 = some e := by
  have h := hmal { s with Meta := s.Meta.SetLastUpdated now }
  simp only [StreamMetaSchema.SetLastUpdated] at h
  refine ⟨?_, ?_, ?_⟩ <;>
    simp [StreamSchema.SetInfo, StreamMetaSchema.SetLastUpdated, h]

/-- C9 witness: an unmarshaller that always rejects its input unchanged,
applied to a concrete stream at tick 7. -/
theorem c9_witness :
    (StreamSchema.SetInfo (fun _ t => (t, some ['e'])) (NewSoundCloudStream 0 []) 7
      ['x']).1.Meta.LastUpdated = 7 ∧
    (StreamSchema.SetInfo (fun _ t => (t, some ['e'])) (NewSoundCloudStream 0 []) 7
      ['x']).2 = some ['e'] := by
  have h := c9_set_info_stamps_before_unmarshal (fun _ t => (t, some ['e']))
    (NewSoundCloudStream 0 []) 7 ['x'] ['e'] (fun _ => rfl)
  exact ⟨h.2.1, h.2.2⟩

/-- C10: a bare `StreamSchema` has no provider, so `FetchMetadata` invokes
the callback exactly once, synchronously (zero goroutines spawned, hence no
network), with a nil payload and an error message that contains the
stream's kind. -/
theorem c10_base_fetch_metadata (s : StreamSchema) :
    s.FetchMetadata.1.length = 1 ∧
    s.FetchMetadata.2 = 0 ∧
    (s.FetchMetadata.1.get! 0).payload = none ∧
    (∃ e, (s.FetchMetadata.1.get! 0).err = some e ∧
      ∃ pre post, e = pre ++ s.Kind ++ post) := by
  exact ⟨rfl, rfl, rfl,
    ⟨"Stream schema of kind \"".toList ++ s.Kind ++
        "\" has no FetchMetadata method implemented.".toList, rfl,
      "Stream schema of kind \"".toList,
      "\" has no FetchMetadata method implemented.".toList, rfl⟩⟩
